import Mathlib

/-
  Verification model of SoundScoop's processing core:

  * the job registry actions of `src/store/useAppStore.ts`
    (`addFiles`, `updateFileProgress`, `updateFileStatus`, `updateFileInfo`),
  * the FFmpeg wrapper of the processor module (`load`, `extractAudio`,
    `getQualityParams`, `getMimeType`, the error classifier and the hybrid
    progress reporting), and
  * the batch orchestration of `src/pages/Processing.tsx`
    (`generateFilesHash`, the effect guard, `startProcessing`,
    `retryProcessing`).

  The TypeScript is embedded shallowly: asynchronous engine calls become an
  oracle record describing what the engine does, the engine interactions are
  collected in an explicit trace, JavaScript numbers become `Nat`/`Int`/`Rat`,
  and nondeterministic inputs (random ids, timers, engine progress events)
  become explicit parameters or event lists.
-/

namespace SoundScoop

/-! ## Character-level string utilities

JavaScript string primitives used by the source (`split('.')`,
`toLowerCase()`, `includes(...)`, `join('|')`, default `sort()`) are modelled
over `List Char` so that they compute by structural recursion. -/

/-- Model of `Array.prototype.join('|')` on a list of strings. -/
def joinBar : List String → String
  | [] => ""
  | [x] => x
  | x :: y :: xs => x ++ "|" ++ joinBar (y :: xs)

/-- Character-level version of `joinBar`, used for its injectivity proof. -/
def charJoin : List (List Char) → List Char
  | [] => []
  | [x] => x
  | x :: y :: xs => x ++ '|' :: charJoin (y :: xs)

/-- Lexicographic comparison of character lists; model of the code-unit
comparison performed by JavaScript's default `Array.prototype.sort()` on the
ASCII ids the store generates. -/
def lexLeCh : List Char → List Char → Bool
  | [], _ => true
  | _ :: _, [] => false
  | a :: as, b :: bs => if a = b then lexLeCh as bs else decide (a < b)

/-- String comparison used to sort job ids. -/
def strLeb (a b : String) : Bool := lexLeCh a.toList b.toList

/-- Insertion step of the id sort. -/
def insertId (x : String) : List String → List String
  | [] => [x]
  | y :: ys => if strLeb x y then x :: y :: ys else y :: insertId x ys

/-- Model of `fileList.map(f => f.id).sort()`: a sort of the id list. -/
def sortIds : List String → List String
  | [] => []
  | x :: xs => insertId x (sortIds xs)

/-- Accumulator recursion behind `splitDot`. -/
def splitDotAux (cur : List Char) : List Char → List (List Char)
  | [] => [cur.reverse]
  | c :: rest => if c = '.' then cur.reverse :: splitDotAux [] rest else splitDotAux (c :: cur) rest

/-- Model of JavaScript `name.split('.')`. -/
def splitDot (name : String) : List (List Char) := splitDotAux [] name.toList

/-- Model of `name.split('.').pop()`: the last segment (possibly empty). -/
def lastSeg (name : String) : String := ⟨(splitDot name).getLastD []⟩

/-- Model of JavaScript `toLowerCase()` on the ASCII/CJK strings involved. -/
def toLowerStr (s : String) : String := ⟨s.toList.map Char.toLower⟩

/-- Does the character list start with the given pattern? -/
def startsWithCh : List Char → List Char → Bool
  | [], _ => true
  | _ :: _, [] => false
  | a :: as, b :: bs => a = b && startsWithCh as bs

/-- Does the pattern occur as a contiguous subsequence? -/
def hasSubSeq (pat : List Char) : List Char → Bool
  | [] => startsWithCh pat []
  | c :: rest => startsWithCh pat (c :: rest) || hasSubSeq pat rest

/-- Model of JavaScript `s.includes(pat)`. -/
def containsSub (s pat : String) : Bool := hasSubSeq pat.toList s.toList

/-! ## Job registry (`useAppStore.ts`)

`VideoFile` keeps the fields that the processing core reads or writes;
purely presentational fields (`file`, `audioUrl`, `audioBlob`, `duration`,
`resolution`, `createdAt`) are omitted. -/

/-- Job status, from the `VideoFile.status` union type. -/
inductive Status
  | pending
  | uploading
  | uploaded
  | processing
  | completed
  | error
deriving DecidableEq, Repr

/-- The `type` argument of `updateFileProgress`. -/
inductive PType
  | upload
  | processing
deriving DecidableEq, Repr

/-- A job descriptor of the registry (`VideoFile` in `useAppStore.ts`). -/
structure VideoFile where
  id : String
  name : String
  size : Nat
  type : String
  uploadProgress : ℚ
  processingProgress : ℚ
  status : Status
  audioFormat : Option String
  audioQuality : Option String
  error : Option String
deriving DecidableEq, Repr

/-- A raw input file handed to `addFiles` (`File` objects in the source). -/
structure RawFile where
  name : String
  size : Nat
  type : String
deriving DecidableEq, Repr

/-- A partial update for `updateFileInfo`; `some none` in `error` models
passing an explicit `undefined` (which clears the field). Only the fields
the processing core actually patches are represented. -/
structure FileInfoPatch where
  status : Option Status := none
  error : Option (Option String) := none
  audioFormat : Option (Option String) := none
  audioQuality : Option (Option String) := none

/-- Apply a partial update to one job, model of `{ ...file, ...info }`. -/
def applyPatch (p : FileInfoPatch) (f : VideoFile) : VideoFile :=
  { f with
    status := p.status.getD f.status
    error := p.error.getD f.error
    audioFormat := p.audioFormat.getD f.audioFormat
    audioQuality := p.audioQuality.getD f.audioQuality }

/-- Common shape of the three store actions: map the update over the entry
whose id matches, leave every other entry alone. -/
def updateById (files : List VideoFile) (id : String) (u : VideoFile → VideoFile) :
    List VideoFile :=
  files.map fun f => if f.id = id then u f else f

/-- Model of `updateFileStatus`. -/
def updateFileStatus (files : List VideoFile) (id : String) (st : Status) : List VideoFile :=
  updateById files id fun f => { f with status := st }

/-- The progress clamp of `updateFileProgress`:
`Math.max(currentProgress, Math.min(100, Math.max(0, progress)))`. -/
def clampProgress (current incoming : ℚ) : ℚ :=
  max current (min 100 (max 0 incoming))

/-- Model of `updateFileProgress` (the monotone progress writer). -/
def updateFileProgress (files : List VideoFile) (id : String) (progress : ℚ)
    (ptype : PType) : List VideoFile :=
  updateById files id fun f =>
    match ptype with
    | PType.upload => { f with uploadProgress := clampProgress f.uploadProgress progress }
    | PType.processing =>
        { f with processingProgress := clampProgress f.processingProgress progress }

/-- Model of `updateFileInfo`. -/
def updateFileInfo (files : List VideoFile) (id : String) (p : FileInfoPatch) :
    List VideoFile :=
  updateById files id (applyPatch p)

/-- The duplicate-name filter of `addFiles`: the source seeds a `Set` with the
names already in the registry and also inserts each accepted new name, so a
later duplicate inside the same call is skipped too. -/
def dedupNewFiles (existing : List String) : List RawFile → List RawFile
  | [] => []
  | f :: rest =>
      if existing.contains f.name then dedupNewFiles existing rest
      else f :: dedupNewFiles (f.name :: existing) rest

/-- The job descriptor `addFiles` builds for an accepted file: status
`pending`, both progress fields `0`. -/
def mkVideoFile (id : String) (f : RawFile) : VideoFile :=
  { id := id, name := f.name, size := f.size, type := f.type
    uploadProgress := 0, processingProgress := 0, status := Status.pending
    audioFormat := none, audioQuality := none, error := none }

/-- Turn the accepted raw files into job descriptors; `mkId` models the
per-file `Math.random().toString(36).substr(2, 9)` id draw. -/
def buildNewFiles (mkId : Nat → String) : Nat → List RawFile → List VideoFile
  | _, [] => []
  | i, f :: rest => mkVideoFile (mkId i) f :: buildNewFiles mkId (i + 1) rest

/-- Model of the `addFiles` store action. -/
def addFiles (state : List VideoFile) (newFiles : List RawFile) (mkId : Nat → String) :
    List VideoFile :=
  state ++ buildNewFiles mkId 0 (dedupNewFiles (state.map (·.name)) newFiles)

/-! ## FFmpeg wrapper: error messages

Every error the wrapper throws is a plain `Error` carrying one of these
message strings; the spec's error taxonomy names classes of these messages. -/

def msgEngineNotLoaded : String := "音频处理引擎未加载，请刷新页面重试"
def msgTooLarge : String := "文件过大，请选择小于100MB的视频文件"
def msgUnsupportedFormat : String :=
  "不支持的视频格式。支持的格式：mp4, avi, mov, mkv, webm, flv, 3gp, wmv, ts, m4v"
def msgWriteVerifyFailed : String := "文件写入验证失败"
def msgReadOutputFailed : String := "音频提取失败：无法读取输出文件"
def msgEmptyOutput : String := "音频提取失败：输出文件为空"
def msgGeneric : String := "音频提取失败，请检查视频文件格式是否支持或尝试其他视频文件"
def msgLoadFailed : String := "无法加载音频处理引擎，请检查网络连接或稍后重试"
def msgEngineLost : String := "音频处理引擎异常，请重新加载页面"
def msgCorruptInput : String := "视频文件格式不支持或文件已损坏，请尝试其他格式的视频文件"
def msgMissingFile : String := "文件读取失败，请重新选择文件"
def msgAccessDenied : String := "文件访问权限不足"
def msgMemoryLow : String := "内存不足，请尝试较小的文件"
def msgCodecUnsupported : String := "视频编码格式不支持，请尝试转换为常见格式（如MP4）后重试"
def msgDamagedFile : String := "视频文件已损坏，请检查文件完整性"

/-! ## FFmpeg wrapper: validation tables and command construction -/

/-- The MIME allowlist of `extractAudio`. -/
def supportedTypes : List String :=
  ["video/mp4", "video/avi", "video/mov", "video/mkv", "video/webm",
   "video/quicktime", "video/x-msvideo", "video/x-matroska",
   "video/mp2t", "video/3gpp", "video/x-flv", "video/x-ms-wmv"]

/-- The extension allowlist of `extractAudio`. -/
def supportedExtensions : List String :=
  ["mp4", "avi", "mov", "mkv", "webm", "flv", "3gp", "wmv", "ts", "m4v"]

/-- `videoFile.type ? supportedTypes.includes(videoFile.type) : false`. -/
def isTypeSupported (t : String) : Bool :=
  if t = "" then false else supportedTypes.contains t

/-- `videoFile.name.split('.').pop()?.toLowerCase()`. -/
def fileExtLower (name : String) : String := toLowerStr (lastSeg name)

/-- `fileExtension ? supportedExtensions.includes(fileExtension) : false`. -/
def isExtensionSupported (name : String) : Bool :=
  if fileExtLower name = "" then false else supportedExtensions.contains (fileExtLower name)

/-- `videoFile.name.split('.').pop() || 'mp4'`, used in the temp input name. -/
def extForInput (name : String) : String :=
  if lastSeg name = "" then "mp4" else lastSeg name

/-- The temporary input file name `input_<uniqueId>.<ext>`. -/
def inputName (fileName uniqueId : String) : String :=
  "input_" ++ uniqueId ++ "." ++ extForInput fileName

/-- The temporary output file name `output_<uniqueId>.<format>`. -/
def outputName (outputFormat uniqueId : String) : String :=
  "output_" ++ uniqueId ++ "." ++ outputFormat

/-- Model of `getQualityParams`: the switch over format and quality strings,
falling through to pushing nothing on unknown values. -/
def getQualityParams (format quality : String) : List String :=
  if format = "mp3" then
    "-acodec" :: "libmp3lame" ::
      (if quality = "high" then ["-b:a", "320k"]
       else if quality = "medium" then ["-b:a", "192k"]
       else if quality = "low" then ["-b:a", "128k"]
       else [])
  else if format = "wav" then
    "-acodec" :: "pcm_s16le" ::
      (if quality = "high" then ["-ar", "48000"]
       else if quality = "medium" then ["-ar", "44100"]
       else if quality = "low" then ["-ar", "22050"]
       else [])
  else if format = "aac" then
    "-acodec" :: "aac" ::
      (if quality = "high" then ["-b:a", "256k"]
       else if quality = "medium" then ["-b:a", "128k"]
       else if quality = "low" then ["-b:a", "96k"]
       else [])
  else []

/-- Model of `getMimeType`. -/
def getMimeType (format : String) : String :=
  if format = "mp3" then "audio/mpeg"
  else if format = "wav" then "audio/wav"
  else if format = "aac" then "audio/aac"
  else "audio/mpeg"

/-- Model of the `catch` classifier at the end of `extractAudio`: keyword
scan over the lowercased message, then the verbatim rethrow of the
unsupported-format validation message, then the generic fallback. -/
def classifyError (msg : String) : String :=
  let em := toLowerStr msg
  if containsSub em ("invalid data found") || containsSub em ("invalid argument") then
    msgCorruptInput
  else if containsSub em ("no such file") || containsSub em ("file not found") then
    msgMissingFile
  else if containsSub em ("permission denied") then msgAccessDenied
  else if containsSub em ("out of memory") || containsSub em ("memory") then msgMemoryLow
  else if containsSub em ("codec") || containsSub em ("format") then msgCodecUnsupported
  else if containsSub em ("corrupted") || containsSub em ("damaged") then msgDamagedFile
  else if containsSub msg ("不支持的视频格式") then msg
  else msgGeneric

/-! ## FFmpeg wrapper: the extraction pipeline -/

/-- One interaction with the engine's virtual filesystem / command runner. -/
inductive EngOp
  | listDir
  | write (name : String)
  | read (name : String)
  | exec (cmd : List String)
  | delete (name : String)
deriving DecidableEq, Repr

deriving instance DecidableEq for Except

/-- Oracle describing what the engine does during one `extractAudio` call.
`writeResult`/`execResult` are `some msg` when the awaited call throws with
that message; `readBack` and `outputRead` either throw or return the byte
length of the data read. Cleanup deletions are always attempted and their
failures swallowed; `deleteInputOk` only decides whether the success-path
cleanup reaches the second deletion. -/
structure EngineBehavior where
  writeResult : Option String
  readBack : Except String Nat
  execResult : Option String
  outputRead : Except String Nat
  deleteInputOk : Bool
deriving DecidableEq, Repr

/-- The source file handed to `extractAudio`; `size` is its byte length
(`fetchFile` returns exactly these bytes, so the "original size" compared by
the write verification equals `size`). -/
structure InputFile where
  name : String
  size : Nat
  type : String
deriving DecidableEq, Repr

/-- The result blob: byte length plus MIME type. -/
structure OutBlob where
  size : Nat
  mime : String
deriving DecidableEq, Repr

/-- The `catch` handler of `extractAudio`: a diagnostic directory listing,
best-effort deletion of both temp names, then the classified rethrow. -/
def extractFail (pre : List EngOp) (inN outN : String) (m : String) :
    List EngOp × Except String OutBlob :=
  (pre ++ [EngOp.listDir, EngOp.delete inN, EngOp.delete outN],
   Except.error (classifyError m))

/-- Model of `extractAudio`. `uniqueId` stands for the
`<timestamp>_<random>` draw; the trace lists every engine interaction in
order. The write verification reads the input back and compares sizes, but a
mismatch is only logged (`console.error`), so `readBack = .ok n` proceeds for
every `n`; only a throwing read-back aborts. -/
def extractAudio (loaded : Bool) (eng : EngineBehavior) (file : InputFile)
    (outputFormat quality uniqueId : String) :
    List EngOp × Except String OutBlob :=
  if !loaded then ([], Except.error msgEngineNotLoaded)
  else
    let inN := inputName file.name uniqueId
    let outN := outputName outputFormat uniqueId
    -- the pre-try diagnostic `listDir('/')`
    let t0 : List EngOp := [EngOp.listDir]
    if 100 * 1024 * 1024 < file.size then
      extractFail t0 inN outN msgTooLarge
    else if !(isTypeSupported file.type || isExtensionSupported file.name) then
      extractFail t0 inN outN msgUnsupportedFormat
    else
      let t1 := t0 ++ [EngOp.write inN]
      match eng.writeResult with
      | some m => extractFail t1 inN outN m
      | none =>
        let t2 := t1 ++ [EngOp.read inN]
        match eng.readBack with
        | Except.error _ => extractFail t2 inN outN msgWriteVerifyFailed
        | Except.ok _ =>
          let command := "-i" :: inN :: "-vn" ::
            (getQualityParams outputFormat quality ++ [outN])
          let t3 := t2 ++ [EngOp.exec command]
          match eng.execResult with
          | some m => extractFail t3 inN outN m
          | none =>
            let t4 := t3 ++ [EngOp.listDir]
            match eng.outputRead with
            | Except.error _ =>
                extractFail (t4 ++ [EngOp.read outN, EngOp.listDir]) inN outN
                  msgReadOutputFailed
            | Except.ok n =>
              let t5 := t4 ++ [EngOp.read outN]
              if n = 0 then extractFail t5 inN outN msgEmptyOutput
              else
                let t6 := t5 ++ [EngOp.delete inN] ++
                  (if eng.deleteInputOk then [EngOp.delete outN] else [])
                (t6, Except.ok { size := n, mime := getMimeType outputFormat })

/-! ## FFmpeg wrapper: the loader -/

/-- Oracle describing one CDN source during `load`: whether direct
initialization succeeds, the outcomes of the staged fetch attempts for the
two artifacts (consulted with up to 3 retries each), whether initializing
from the fetched blob URLs succeeds, and whether the post-load self-test
(`exec ['-version']`) succeeds. -/
structure SourceBehavior where
  directOk : Bool
  coreFetch : List Bool
  wasmFetch : List Bool
  blobLoadOk : Bool
  selfTestOk : Bool
deriving DecidableEq, Repr

/-- `loadWithRetry` with `maxRetries = 3`: succeeds iff one of the first
three fetch attempts succeeds. -/
def fetchOk (attempts : List Bool) : Bool := (attempts.take 3).any id

/-- Success of the staged (fetch-then-initialize) path for one source. -/
def stagedOk (s : SourceBehavior) : Bool :=
  fetchOk s.coreFetch && fetchOk s.wasmFetch && s.blobLoadOk && s.selfTestOk

/-- One source attempt. After an earlier source failed, the loop left
`this.ffmpeg = null`, so every later attempt fails immediately on the null
instance regardless of the source's own behavior (`inst = false`). -/
def trySourceOk (inst : Bool) (s : SourceBehavior) : Bool :=
  inst && ((s.directOk && s.selfTestOk) || stagedOk s)

/-- Loader state: whether an engine instance is retained and the `loaded`
flag. -/
structure EngineState where
  ffmpegInst : Bool
  loaded : Bool
deriving DecidableEq, Repr

/-- The source loop of `load`: first success returns with `loaded := true`;
each failure discards the instance; exhausting the list throws the single
aggregated load error with the instance discarded and `loaded := false`. -/
def loadGo : EngineState → List SourceBehavior → EngineState × Except String Unit
  | _, [] => (⟨false, false⟩, Except.error msgLoadFailed)
  | st, s :: rest =>
      if trySourceOk st.ffmpegInst s then ({ st with loaded := true }, Except.ok ())
      else loadGo ⟨false, false⟩ rest

/-- Model of `load`: no-op when already loaded with a live instance,
otherwise create a fresh instance and run the source loop. -/
def load (st : EngineState) (sources : List SourceBehavior) :
    EngineState × Except String Unit :=
  if st.loaded && st.ffmpegInst then (st, Except.ok ())
  else loadGo ⟨true, st.loaded⟩ sources

/-! ## FFmpeg wrapper: hybrid progress reporting

During `exec`, genuine engine progress events and a 300ms interval timer
share one `lastProgress` variable. A genuine event reports
`Math.round(progress * 100)` only when it exceeds `lastProgress`; a timer
tick, only while `lastProgress < 95`, adds a random increment and caps the
result at 95. When `exec` resolves, `onProgress(100)` is called. -/

/-- JavaScript `Math.round` on an exact rational (round half towards
positive infinity), written with integer division so that it computes. -/
def jsRound (q : ℚ) : ℤ := (2 * q.num + q.den) / (2 * (q.den : ℤ))

/-- One progress stimulus while the command runs: a genuine engine progress
event carrying the engine's `progress` ratio, or one interval tick carrying
the `Math.random() * 2 + 0.5` increment. -/
inductive PEvent
  | genuine (q : ℚ)
  | tick (inc : ℚ)

/-- One value passed to `onProgress` before the command completes, tagged
with which mechanism produced it. -/
inductive PReport
  | fromGenuine (p : ℤ)
  | fromTick (p : ℤ)
deriving DecidableEq, Repr

/-- The reported number. -/
def reportValue : PReport → ℤ
  | PReport.fromGenuine p => p
  | PReport.fromTick p => p

/-- One step of the shared `lastProgress` state machine. -/
def pstep (last : ℚ) : PEvent → ℚ × Option PReport
  | PEvent.genuine q =>
      let p := jsRound (q * 100)
      if last < (p : ℚ) then ((p : ℚ), some (PReport.fromGenuine p)) else (last, none)
  | PEvent.tick inc =>
      if last < 95 then
        let np := min (last + inc) 95
        if last < np then (np, some (PReport.fromTick (jsRound np))) else (last, none)
      else (last, none)

/-- Run the stimuli from a given `lastProgress`, collecting the reports. -/
def runEvents : ℚ → List PEvent → ℚ × List PReport
  | last, [] => (last, [])
  | last, e :: es =>
      let s := pstep last e
      let r := runEvents s.1 es
      (r.1, s.2.toList ++ r.2)

/-- The reports issued before the command completes (initial progress 0). -/
def preReports (events : List PEvent) : List PReport := (runEvents 0 events).2

/-- All values handed to `onProgress` during a successful command: the
pre-completion reports followed by the forced final 100. -/
def allReports (events : List PEvent) : List ℤ :=
  (preReports events).map reportValue ++ [100]

/-- The genuine engine progress ratio lies in `[0, 1]`. -/
def validEventsB : List PEvent → Bool
  | [] => true
  | PEvent.genuine q :: es => decide (0 ≤ q) && decide (q ≤ 1) && validEventsB es
  | PEvent.tick _ :: es => validEventsB es

/-! ## Batch orchestrator (`Processing.tsx`) -/

/-- Model of `generateFilesHash`: the sorted job ids joined with a bar. -/
def generateFilesHash (fileList : List VideoFile) : String :=
  joinBar (sortIds (fileList.map (·.id)))

/-- Guard state of the Processing page: the `filesHashRef` and
`hasStartedProcessingRef` refs plus the `isProcessing` flag. -/
structure Guard where
  filesHash : String
  hasStarted : Bool
  isProcessing : Bool
deriving DecidableEq, Repr

/-- One registry mutation of the kind a running batch performs: a status
write or a progress write. Neither touches job ids. -/
inductive StoreUpdate
  | setStatus (id : String) (st : Status)
  | setProgress (id : String) (p : ℚ) (k : PType)

/-- Apply one registry mutation. -/
def applyUpdate (files : List VideoFile) : StoreUpdate → List VideoFile
  | StoreUpdate.setStatus id st => updateFileStatus files id st
  | StoreUpdate.setProgress id p k => updateFileProgress files id p k

/-- Apply a sequence of registry mutations. -/
def applyUpdates (us : List StoreUpdate) (files : List VideoFile) : List VideoFile :=
  us.foldl applyUpdate files

/-- The hash comparison at the top of the Processing page effect: when the
hash of the current file list differs from `filesHashRef`, store the new
hash and clear `hasStartedProcessingRef` (re-arm the guard); otherwise leave
the guard untouched. -/
def rearmGuard (g : Guard) (files : List VideoFile) : Guard :=
  let h := generateFilesHash files
  if g.filesHash ≠ h then { g with filesHash := h, hasStarted := false } else g

/-- Model of the Processing page effect plus the entry guards of
`startProcessing`. Returns the new guard state and whether a batch run
started. `fl` is the store's `ffmpegLoaded` flag, `el` is
`ffmpegProcessor.isLoaded()`. -/
def processEffect (g : Guard) (files : List VideoFile) (fl el : Bool) : Guard × Bool :=
  let g1 := rearmGuard g files
  if fl && !g1.isProcessing && !files.isEmpty && !g1.hasStarted &&
      files.any (fun f => decide (f.status = Status.pending)) then
    let g2 := { g1 with hasStarted := true }
    -- startProcessing re-checks its own guards before running
    if !g2.isProcessing && !files.isEmpty &&
        !(files.filter (fun f => decide (f.status = Status.pending))).isEmpty &&
        fl && el then
      ({ g2 with isProcessing := true }, true)
    else (g2, false)
  else (g1, false)

/-- One loop iteration of `startProcessing` for snapshot entry `f`:
skip unless pending, mark processing, write progress 0 (through the clamp),
re-check engine readiness, then either run the extraction or record the
failure. Returns the new store, whether `extractAudio` was invoked, and
whether the job completed. `engineOk` is `ffmpegProcessor.isLoaded()` at
dispatch time; `exRes` the extraction outcome (output byte length or the
thrown message). -/
def dispatchOne (engineOk : Bool) (exRes : Except String Nat)
    (store : List VideoFile) (f : VideoFile) : List VideoFile × Bool × Bool :=
  if f.status ≠ Status.pending then (store, false, false)
  else
    -- the second pending re-check consults the same stale snapshot and is
    -- therefore a no-op here
    let s1 := updateFileProgress (updateFileStatus store f.id Status.processing)
      f.id 0 PType.processing
    if !engineOk then
      (updateFileInfo (updateFileStatus s1 f.id Status.error) f.id
        { error := some (some msgEngineLost) }, false, false)
    else
      match exRes with
      | Except.ok _ =>
          (updateFileInfo s1 f.id
            { status := some Status.completed
              audioFormat := some (some ("mp3"))
              audioQuality := some (some ("high")) }, true, true)
      | Except.error m =>
          (updateFileInfo (updateFileStatus s1 f.id Status.error) f.id
            { error := some (some m) }, true, false)

/-- The dispatch loop over the snapshot, carrying the store and collecting
the indices that reached `extractAudio`. -/
def runLoop (eo : Nat → Bool) (ex : Nat → Except String Nat) :
    Nat → List VideoFile → List VideoFile → List VideoFile × List Nat
  | _, [], store => (store, [])
  | i, f :: rest, store =>
      let d := dispatchOne (eo i) (ex i) store f
      let r := runLoop eo ex (i + 1) rest d.1
      (r.1, (if d.2.1 then [i] else []) ++ r.2)

/-- Model of the dispatch loop of `startProcessing` on snapshot `files`. -/
def startProcessingRun (eo : Nat → Bool) (ex : Nat → Except String Nat)
    (files : List VideoFile) : List VideoFile × List Nat :=
  runLoop eo ex 0 files files

/-- The end state of one snapshot entry, computed independently. -/
def jobOutcome (engineOk : Bool) (exRes : Except String Nat) (f : VideoFile) :
    VideoFile :=
  if f.status ≠ Status.pending then f
  else
    let f1 := { f with status := Status.processing }
    let f2 := { f1 with processingProgress := clampProgress f1.processingProgress 0 }
    if !engineOk then { f2 with status := Status.error, error := some msgEngineLost }
    else
      match exRes with
      | Except.ok _ =>
          { f2 with
            status := Status.completed
            audioFormat := some ("mp3")
            audioQuality := some ("high") }
      | Except.error m => { f2 with status := Status.error, error := some m }

/-- Per-index image of the whole snapshot under `jobOutcome`. -/
def outcomes (eo : Nat → Bool) (ex : Nat → Except String Nat) :
    Nat → List VideoFile → List VideoFile
  | _, [] => []
  | i, f :: rest => jobOutcome (eo i) (ex i) f :: outcomes eo ex (i + 1) rest

/-- The status reset loop of `retryProcessing`: for every snapshot entry in
`error` state, set status `pending`, write progress 0 (through the clamp)
and clear the error message. -/
def retryResetFiles (files : List VideoFile) : List VideoFile :=
  files.foldl
    (fun fs f =>
      if f.status = Status.error then
        updateFileInfo
          (updateFileProgress (updateFileStatus fs f.id Status.pending) f.id 0
            PType.processing)
          f.id { error := some none }
      else fs)
    files

/-- Model of `retryProcessing` up to the re-dispatch: bail out when the
engine is not ready, otherwise reset every errored job. The store state this
returns is the one `startProcessing` is then scheduled on. -/
def retryProcessing (engineReady : Bool) (files : List VideoFile) : List VideoFile :=
  if !engineReady then files else retryResetFiles files

/-! ## Concrete fixtures used in the claim evaluations -/

/-- A well-formed small source file. -/
def cxFileSmall : InputFile := { name := "a.mp4", size := 10, type := "video/mp4" }

/-- A source file one byte over the 100MB limit. -/
def cxFileBig : InputFile := { name := "big.mp4", size := 104857601, type := "video/mp4" }

/-- A benign engine whose read-back returns one byte more than was written. -/
def cxEngMismatch : EngineBehavior :=
  { writeResult := none, readBack := Except.ok 11, execResult := none
    outputRead := Except.ok 5, deleteInputOk := true }

/-- A job in `error` state with partial processing progress recorded. -/
def cxJobErr : VideoFile :=
  { id := "f1", name := "a.mp4", size := 10, type := "video/mp4"
    uploadProgress := 0, processingProgress := 57, status := Status.error
    audioFormat := none, audioQuality := none, error := some ("处理失败") }

/-- A pending job. -/
def cxJobA : VideoFile :=
  { id := "a", name := "a.mp4", size := 10, type := "video/mp4"
    uploadProgress := 0, processingProgress := 0, status := Status.pending
    audioFormat := none, audioQuality := none, error := none }

/-- A second pending job. -/
def cxJobB : VideoFile := { cxJobA with id := "b", name := "b.mp4" }

/-! ## Lemmas about `jsRound` and the progress state machine -/

theorem jsRound_eq (q : ℚ) : jsRound q = ⌊q + 1/2⌋ := by
  have hden : ((q.den : ℚ)) ≠ 0 := by
    exact_mod_cast Nat.cast_ne_zero.mpr q.den_nz
  have key : q + 1/2 = ((2 * q.num + (q.den : ℤ) : ℤ) : ℚ) / ((2 * q.den : ℕ) : ℚ) := by
    conv_lhs => rw [← Rat.num_div_den q]
    push_cast
    field_simp
    ring
  rw [jsRound, key, Rat.floor_intCast_div_natCast]
  push_cast
  ring_nf

theorem jsRound_mono {a b : ℚ} (h : a ≤ b) : jsRound a ≤ jsRound b := by
  rw [jsRound_eq, jsRound_eq]
  exact Int.floor_le_floor (by linarith)

theorem jsRound_intCast (z : ℤ) : jsRound ((z : ℚ)) = z := by
  rw [jsRound_eq, add_comm, Int.floor_add_int]
  norm_num

theorem jsRound_95 : jsRound ((95 : ℚ)) = 95 := by decide

theorem jsRound_100 : jsRound ((100 : ℚ)) = 100 := by decide

/-- Branch equation: accepted genuine event. -/
theorem pstep_genuine_pos (last q : ℚ) (hc : last < ((jsRound (q * 100) : ℤ) : ℚ)) :
    pstep last (PEvent.genuine q) =
      (((jsRound (q * 100) : ℤ) : ℚ), some (PReport.fromGenuine (jsRound (q * 100)))) := by
  simp [pstep, hc]

/-- Branch equation: ignored genuine event. -/
theorem pstep_genuine_neg (last q : ℚ) (hc : ¬ last < ((jsRound (q * 100) : ℤ) : ℚ)) :
    pstep last (PEvent.genuine q) = (last, none) := by
  simp [pstep, hc]

/-- Branch equation: effective filler tick. -/
theorem pstep_tick_pos (last inc : ℚ) (h1 : last < 95)
    (h2 : last < min (last + inc) 95) :
    pstep last (PEvent.tick inc) =
      (min (last + inc) 95, some (PReport.fromTick (jsRound (min (last + inc) 95)))) := by
  simp [pstep, h1, h2]

/-- Branch equation: ineffective filler tick below the ceiling. -/
theorem pstep_tick_stuck (last inc : ℚ) (h1 : last < 95)
    (h2 : ¬ last < min (last + inc) 95) :
    pstep last (PEvent.tick inc) = (last, none) := by
  simp [pstep, h1, h2]

/-- Branch equation: filler tick at or above the ceiling. -/
theorem pstep_tick_ceiling (last inc : ℚ) (h1 : ¬ last < 95) :
    pstep last (PEvent.tick inc) = (last, none) := by
  simp [pstep, h1]

/-- `lastProgress` never decreases at a single step. -/
theorem pstep_fst_mono (last : ℚ) (e : PEvent) : last ≤ (pstep last e).1 := by
  cases e with
  | genuine q =>
      by_cases hc : last < ((jsRound (q * 100) : ℤ) : ℚ)
      · rw [pstep_genuine_pos last q hc]
        exact le_of_lt hc
      · rw [pstep_genuine_neg last q hc]
  | tick inc =>
      by_cases h1 : last < 95
      · by_cases h2 : last < min (last + inc) 95
        · rw [pstep_tick_pos last inc h1 h2]
          exact le_of_lt h2
        · rw [pstep_tick_stuck last inc h1 h2]
      · rw [pstep_tick_ceiling last inc h1]

/-- A report issued at a step carries `jsRound` of the updated state. -/
theorem pstep_report (last : ℚ) (e : PEvent) (r : PReport)
    (h : (pstep last e).2 = some r) : reportValue r = jsRound (pstep last e).1 := by
  cases e with
  | genuine q =>
      by_cases hc : last < ((jsRound (q * 100) : ℤ) : ℚ)
      · rw [pstep_genuine_pos last q hc] at h ⊢
        simp only [Option.some.injEq] at h
        rw [← h, jsRound_intCast]
        rfl
      · rw [pstep_genuine_neg last q hc] at h
        simp at h
  | tick inc =>
      by_cases h1 : last < 95
      · by_cases h2 : last < min (last + inc) 95
        · rw [pstep_tick_pos last inc h1 h2] at h ⊢
          simp only [Option.some.injEq] at h
          rw [← h]
          rfl
        · rw [pstep_tick_stuck last inc h1 h2] at h
          simp at h
      · rw [pstep_tick_ceiling last inc h1] at h
        simp at h

/-- A filler tick never reports above 95. -/
theorem pstep_tick_le (last inc : ℚ) (p : ℤ)
    (h : (pstep last (PEvent.tick inc)).2 = some (PReport.fromTick p)) : p ≤ 95 := by
  by_cases h1 : last < 95
  · by_cases h2 : last < min (last + inc) 95
    · rw [pstep_tick_pos last inc h1 h2] at h
      simp only [Option.some.injEq, PReport.fromTick.injEq] at h
      have hle : min (last + inc) 95 ≤ (95 : ℚ) := min_le_right _ _
      calc p = jsRound (min (last + inc) 95) := h.symm
        _ ≤ jsRound ((95 : ℚ)) := jsRound_mono hle
        _ = 95 := jsRound_95
    · rw [pstep_tick_stuck last inc h1 h2] at h
      simp at h
  · rw [pstep_tick_ceiling last inc h1] at h
    simp at h

/-- A genuine event never produces a `fromTick` report. -/
theorem pstep_genuine_not_tick (last q : ℚ) (p : ℤ) :
    (pstep last (PEvent.genuine q)).2 ≠ some (PReport.fromTick p) := by
  by_cases hc : last < ((jsRound (q * 100) : ℤ) : ℚ)
  · rw [pstep_genuine_pos last q hc]
    simp
  · rw [pstep_genuine_neg last q hc]
    simp

/-- With a valid genuine ratio, one step keeps `lastProgress` at most 100. -/
theorem pstep_le_100 (last : ℚ) (e : PEvent) (hl : last ≤ 100)
    (hv : ∀ q, e = PEvent.genuine q → 0 ≤ q ∧ q ≤ 1) : (pstep last e).1 ≤ 100 := by
  cases e with
  | genuine q =>
      obtain ⟨_, hq1⟩ := hv q rfl
      by_cases hc : last < ((jsRound (q * 100) : ℤ) : ℚ)
      · rw [pstep_genuine_pos last q hc]
        have hmul : q * 100 ≤ (100 : ℚ) := by linarith
        have hint : jsRound (q * 100) ≤ (100 : ℤ) := by
          calc jsRound (q * 100) ≤ jsRound ((100 : ℚ)) := jsRound_mono hmul
            _ = 100 := jsRound_100
        show ((jsRound (q * 100) : ℤ) : ℚ) ≤ 100
        exact_mod_cast hint
      · rw [pstep_genuine_neg last q hc]
        exact hl
  | tick inc =>
      by_cases h1 : last < 95
      · by_cases h2 : last < min (last + inc) 95
        · rw [pstep_tick_pos last inc h1 h2]
          have hle : min (last + inc) 95 ≤ (95 : ℚ) := min_le_right _ _
          exact le_trans hle (by norm_num)
        · rw [pstep_tick_stuck last inc h1 h2]
          exact hl
      · rw [pstep_tick_ceiling last inc h1]
        exact hl

/-- Run-level facts: the final `lastProgress` dominates the initial one,
every report value sits between `jsRound` of the two, and the sequence of
report values is non-decreasing. -/
theorem runEvents_spec (events : List PEvent) : ∀ last0 : ℚ,
    last0 ≤ (runEvents last0 events).1 ∧
    (∀ r ∈ (runEvents last0 events).2,
      jsRound last0 ≤ reportValue r ∧ reportValue r ≤ jsRound (runEvents last0 events).1) ∧
    List.Chain' (· ≤ ·) (((runEvents last0 events).2).map reportValue) := by
  induction events with
  | nil => intro last0; simp [runEvents]
  | cons e es ih =>
      intro last0
      obtain ⟨ih1, ih2, ih3⟩ := ih (pstep last0 e).1
      have hmono := pstep_fst_mono last0 e
      refine ⟨le_trans hmono ih1, ?_, ?_⟩
      · intro r hr
        simp only [runEvents, List.mem_append] at hr
        rcases hr with hr | hr
        · have hsome : (pstep last0 e).2 = some r :=
            Option.mem_def.mp (Option.mem_toList.mp hr)
          have hval := pstep_report last0 e r hsome
          constructor
          · rw [hval]; exact jsRound_mono hmono
          · rw [hval]
            exact jsRound_mono ih1
        · obtain ⟨hlo, hhi⟩ := ih2 r hr
          exact ⟨le_trans (jsRound_mono hmono) hlo, hhi⟩
      · simp only [runEvents]
        cases hps : (pstep last0 e).2 with
        | none => simpa using ih3
        | some r0 =>
            simp only [Option.toList, List.map_cons, List.map_append, List.singleton_append]
            rw [List.chain'_cons']
            refine ⟨?_, ih3⟩
            intro b hb
            have hbmem : b ∈ ((runEvents (pstep last0 e).1 es).2).map reportValue :=
              List.mem_of_mem_head? hb
            obtain ⟨r1, hr1, hbeq⟩ := List.mem_map.mp hbmem
            have hval := pstep_report last0 e r0 hps
            rw [hval, ← hbeq]
            exact (ih2 r1 hr1).1

/-- Run-level bound: from a state at most 100 with valid genuine ratios,
`lastProgress` stays at most 100. -/
theorem runEvents_le_100 (events : List PEvent) (hv : validEventsB events = true) :
    ∀ last0 : ℚ, last0 ≤ 100 → (runEvents last0 events).1 ≤ 100 := by
  induction events with
  | nil => intro last0 h; simpa [runEvents] using h
  | cons e es ih =>
      intro last0 hl
      have hstep : (pstep last0 e).1 ≤ 100 := by
        refine pstep_le_100 last0 e hl ?_
        intro q hq
        cases e with
        | genuine q0 =>
            cases hq
            simp only [validEventsB, Bool.and_eq_true, decide_eq_true_eq] at hv
            exact ⟨hv.1.1, hv.1.2⟩
        | tick inc => cases hq
      have hes : validEventsB es = true := by
        cases e with
        | genuine q0 =>
            simp only [validEventsB, Bool.and_eq_true] at hv
            exact hv.2
        | tick inc => simpa [validEventsB] using hv
      simpa [runEvents] using ih hes (pstep last0 e).1 hstep

/-- Run-level fact: every `fromTick` report is at most 95. -/
theorem runEvents_tick_le (events : List PEvent) : ∀ (last0 : ℚ) (p : ℤ),
    PReport.fromTick p ∈ (runEvents last0 events).2 → p ≤ 95 := by
  induction events with
  | nil => intro last0 p h; simp [runEvents] at h
  | cons e es ih =>
      intro last0 p h
      simp only [runEvents, List.mem_append] at h
      rcases h with h | h
      · have hsome : (pstep last0 e).2 = some (PReport.fromTick p) :=
          Option.mem_def.mp (Option.mem_toList.mp h)
        cases e with
        | genuine q => exact absurd hsome (pstep_genuine_not_tick last0 q p)
        | tick inc => exact pstep_tick_le last0 inc p hsome
      · exact ih (pstep last0 e).1 p h

/-! ## Lemmas about the files hash -/

theorem insertId_perm (x : String) (l : List String) : (insertId x l).Perm (x :: l) := by
  induction l with
  | nil => exact List.Perm.refl _
  | cons y ys ih =>
      by_cases h : strLeb x y = true
      · rw [insertId, if_pos h]
      · rw [insertId, if_neg h]
        exact (ih.cons y).trans (List.Perm.swap x y ys)

theorem sortIds_perm (l : List String) : (sortIds l).Perm l := by
  induction l with
  | nil => exact List.Perm.refl _
  | cons x xs ih => exact (insertId_perm x (sortIds xs)).trans (ih.cons x)

theorem joinBar_toList (l : List String) :
    (joinBar l).toList = charJoin (l.map String.toList) := by
  match l with
  | [] => rfl
  | [x] => rfl
  | x :: y :: xs =>
      have ih := joinBar_toList (y :: xs)
      have hstep : (joinBar (x :: y :: xs)).toList =
          x.toList ++ ['|'] ++ (joinBar (y :: xs)).toList := rfl
      rw [hstep, ih]
      simp [charJoin, List.append_assoc]

/-- Splitting at the first bar is unambiguous for bar-free prefixes. -/
theorem splitBar (a : List Char) : ∀ (b r s : List Char), '|' ∉ a → '|' ∉ b →
    a ++ '|' :: r = b ++ '|' :: s → a = b ∧ r = s := by
  induction a with
  | nil =>
      intro b r s _ hb h
      cases b with
      | nil => simpa using h
      | cons c cs =>
          simp only [List.nil_append, List.cons_append, List.cons.injEq] at h
          apply absurd _ hb
          rw [← h.1]
          exact List.mem_cons_self _ _
  | cons x xs ih =>
      intro b r s ha hb h
      cases b with
      | nil =>
          simp only [List.nil_append, List.cons_append, List.cons.injEq] at h
          apply absurd _ ha
          rw [h.1]
          exact List.mem_cons_self _ _
      | cons c cs =>
          simp only [List.cons_append, List.cons.injEq] at h
          obtain ⟨hx, hrest⟩ := h
          have hxs : '|' ∉ xs := fun hm => ha (List.mem_cons_of_mem x hm)
          have hcs : '|' ∉ cs := fun hm => hb (List.mem_cons_of_mem c hm)
          obtain ⟨he, hr⟩ := ih cs r s hxs hcs hrest
          exact ⟨by rw [hx, he], hr⟩

theorem charJoin_ne_nil (b : List Char) (t : List Char) (rest : List (List Char)) :
    charJoin (b :: t :: rest) ≠ [] := by
  show b ++ '|' :: charJoin (t :: rest) ≠ []
  cases b <;> simp

theorem charJoin_inj (l1 : List (List Char)) : ∀ l2 : List (List Char),
    (∀ x ∈ l1, x ≠ [] ∧ '|' ∉ x) → (∀ x ∈ l2, x ≠ [] ∧ '|' ∉ x) →
    charJoin l1 = charJoin l2 → l1 = l2 := by
  induction l1 with
  | nil =>
      intro l2 _ h2 h
      cases l2 with
      | nil => rfl
      | cons b bs =>
          cases bs with
          | nil =>
              exact absurd ((show charJoin [b] = b from rfl) ▸ h.symm)
                (h2 b (List.mem_cons_self _ _)).1
          | cons c cs => exact absurd h.symm (charJoin_ne_nil b c cs)
  | cons a as ih =>
      intro l2 h1 h2 h
      cases as with
      | nil =>
          cases l2 with
          | nil =>
              exact absurd ((show charJoin [a] = a from rfl) ▸ h)
                (h1 a (List.mem_cons_self _ _)).1
          | cons b bs =>
              cases bs with
              | nil =>
                  have : a = b := h
                  rw [this]
              | cons c cs =>
                  have hmem : '|' ∈ charJoin (b :: c :: cs) := by
                    show '|' ∈ b ++ '|' :: charJoin (c :: cs)
                    exact List.mem_append_right b (List.mem_cons_self _ _)
                  rw [← h] at hmem
                  exact absurd hmem (h1 a (List.mem_cons_self _ _)).2
      | cons a2 as2 =>
          cases l2 with
          | nil => exact absurd h (charJoin_ne_nil a a2 as2)
          | cons b bs =>
              cases bs with
              | nil =>
                  have hmem : '|' ∈ charJoin (a :: a2 :: as2) := by
                    show '|' ∈ a ++ '|' :: charJoin (a2 :: as2)
                    exact List.mem_append_right a (List.mem_cons_self _ _)
                  rw [h] at hmem
                  exact absurd hmem (h2 b (List.mem_cons_self _ _)).2
              | cons b2 bs2 =>
                  have hsplit := splitBar a b (charJoin (a2 :: as2)) (charJoin (b2 :: bs2))
                    (h1 a (List.mem_cons_self _ _)).2 (h2 b (List.mem_cons_self _ _)).2 h
                  have htail := ih (b2 :: bs2)
                    (fun x hx => h1 x (List.mem_cons_of_mem a hx))
                    (fun x hx => h2 x (List.mem_cons_of_mem b hx)) hsplit.2
                  rw [hsplit.1, htail]

theorem toList_injective : Function.Injective String.toList := by
  intro a b hab
  cases a with
  | mk d1 =>
      cases b with
      | mk d2 =>
          have h : d1 = d2 := by simpa [String.toList] using hab
          rw [h]

theorem joinBar_inj (l1 l2 : List String)
    (h1 : ∀ s ∈ l1, s.toList ≠ [] ∧ '|' ∉ s.toList)
    (h2 : ∀ s ∈ l2, s.toList ≠ [] ∧ '|' ∉ s.toList)
    (h : joinBar l1 = joinBar l2) : l1 = l2 := by
  have hchar : charJoin (l1.map String.toList) = charJoin (l2.map String.toList) := by
    rw [← joinBar_toList, ← joinBar_toList, h]
  have hmaps : l1.map String.toList = l2.map String.toList := by
    refine charJoin_inj (l1.map String.toList) (l2.map String.toList) ?_ ?_ hchar
    · intro x hx
      obtain ⟨s, hs, rfl⟩ := List.mem_map.mp hx
      exact h1 s hs
    · intro x hx
      obtain ⟨s, hs, rfl⟩ := List.mem_map.mp hx
      exact h2 s hs
  exact List.map_injective_iff.mpr toList_injective hmaps

/-- If one id list permutes into the other, their hashes agree is not needed;
what the guard relies on is the converse: equal hashes force equal id sets.
This lemma extracts the permutation from hash equality. -/
theorem perm_of_hash_eq (l1 l2 : List String)
    (h1 : ∀ s ∈ l1, s.toList ≠ [] ∧ '|' ∉ s.toList)
    (h2 : ∀ s ∈ l2, s.toList ≠ [] ∧ '|' ∉ s.toList)
    (h : joinBar (sortIds l1) = joinBar (sortIds l2)) : l1.Perm l2 := by
  have hs1 : ∀ s ∈ sortIds l1, s.toList ≠ [] ∧ '|' ∉ s.toList := fun s hs =>
    h1 s ((sortIds_perm l1).mem_iff.mp hs)
  have hs2 : ∀ s ∈ sortIds l2, s.toList ≠ [] ∧ '|' ∉ s.toList := fun s hs =>
    h2 s ((sortIds_perm l2).mem_iff.mp hs)
  have hsort : sortIds l1 = sortIds l2 := joinBar_inj _ _ hs1 hs2 h
  exact (sortIds_perm l1).symm.trans (hsort ▸ sortIds_perm l2)

/-! ## Lemmas about the store updates -/

theorem updateById_map_id (files : List VideoFile) (id : String)
    (u : VideoFile → VideoFile) (hu : ∀ f, (u f).id = f.id) :
    (updateById files id u).map (·.id) = files.map (·.id) := by
  induction files with
  | nil => rfl
  | cons f fs ih =>
      simp only [updateById, List.map_cons] at ih ⊢
      by_cases h : f.id = id
      · rw [if_pos h, hu f, ih]
      · rw [if_neg h, ih]

theorem applyUpdate_map_id (files : List VideoFile) (u : StoreUpdate) :
    (applyUpdate files u).map (·.id) = files.map (·.id) := by
  cases u with
  | setStatus id st => exact updateById_map_id files id _ (fun f => rfl)
  | setProgress id p k =>
      refine updateById_map_id files id _ (fun f => ?_)
      cases k <;> rfl

theorem applyUpdates_map_id (us : List StoreUpdate) : ∀ files : List VideoFile,
    (applyUpdates us files).map (·.id) = files.map (·.id) := by
  induction us with
  | nil => intro files; rfl
  | cons u us ih =>
      intro files
      show (applyUpdates us (applyUpdate files u)).map (·.id) = _
      rw [ih (applyUpdate files u), applyUpdate_map_id]

theorem hash_after_updates (us : List StoreUpdate) (files : List VideoFile) :
    generateFilesHash (applyUpdates us files) = generateFilesHash files := by
  unfold generateFilesHash
  rw [applyUpdates_map_id]

/-! ## Lemmas about the dispatch loop -/

theorem map_id_of_ne (l : List VideoFile) (id : String) (u : VideoFile → VideoFile)
    (h : ∀ g ∈ l, g.id ≠ id) :
    (l.map fun g => if g.id = id then u g else g) = l := by
  induction l with
  | nil => rfl
  | cons g gs ih =>
      simp only [List.map_cons]
      rw [if_neg (h g (List.mem_cons_self _ _)),
        ih (fun x hx => h x (List.mem_cons_of_mem g hx))]

/-- `updateById` on a store whose other entries have different ids rewrites
exactly the middle entry. -/
theorem updateById_at (pre post : List VideoFile) (f g : VideoFile)
    (u : VideoFile → VideoFile) (hid : g.id = f.id)
    (hpre : ∀ x ∈ pre, x.id ≠ f.id) (hpost : ∀ x ∈ post, x.id ≠ f.id) :
    updateById (pre ++ g :: post) f.id u = pre ++ u g :: post := by
  unfold updateById
  rw [List.map_append, List.map_cons, if_pos hid, map_id_of_ne pre f.id u hpre,
    map_id_of_ne post f.id u hpost]

theorem jobOutcome_id (eo : Bool) (ex : Except String Nat) (f : VideoFile) :
    (jobOutcome eo ex f).id = f.id := by
  unfold jobOutcome
  by_cases hst : f.status ≠ Status.pending
  · rw [if_pos hst]
  · rw [if_neg hst]
    cases eo <;> cases ex <;> rfl


theorem updateById_at2 (pre post : List VideoFile) (idv : String) (g : VideoFile)
    (u : VideoFile → VideoFile)
    (hpre : ∀ x ∈ pre, x.id ≠ idv) (hpost : ∀ x ∈ post, x.id ≠ idv) :
    updateById (pre ++ g :: post) idv u
      = pre ++ (if g.id = idv then u g else g) :: post := by
  unfold updateById
  rw [List.map_append, List.map_cons, map_id_of_ne pre idv u hpre,
    map_id_of_ne post idv u hpost]

theorem dispatchOne_at (eo : Bool) (ex : Except String Nat)
    (pre post : List VideoFile) (f : VideoFile)
    (hpre : ∀ x ∈ pre, x.id ≠ f.id) (hpost : ∀ x ∈ post, x.id ≠ f.id) :
    (dispatchOne eo ex (pre ++ f :: post) f).1 = pre ++ jobOutcome eo ex f :: post := by
  by_cases hst : f.status ≠ Status.pending
  · unfold dispatchOne jobOutcome
    rw [if_pos hst, if_pos hst]
  · have key : ∀ (g : VideoFile) (u : VideoFile → VideoFile),
        updateById (pre ++ g :: post) f.id u
          = pre ++ (if g.id = f.id then u g else g) :: post :=
      fun g u => updateById_at2 pre post f.id g u hpre hpost
    unfold dispatchOne jobOutcome
    rw [if_neg hst, if_neg hst]
    simp only [updateFileStatus, updateFileProgress, updateFileInfo]
    cases eo with
    | false => simp [key, applyPatch]
    | true => cases ex with
      | ok n => simp [key, applyPatch]
      | error m => simp [key, applyPatch]


theorem dispatchOne_called (eo : Bool) (ex : Except String Nat)
    (store : List VideoFile) (f : VideoFile)
    (h : (dispatchOne eo ex store f).2.1 = true) : eo = true := by
  by_cases hst : f.status ≠ Status.pending
  · rw [dispatchOne, if_pos hst] at h
    simp at h
  · cases eo with
    | true => rfl
    | false =>
        rw [dispatchOne, if_neg hst] at h
        simp at h

theorem runLoop_calls (eo : Nat → Bool) (ex : Nat → Except String Nat) :
    ∀ (todo : List VideoFile) (i : Nat) (store : List VideoFile) (j : Nat),
      j ∈ (runLoop eo ex i todo store).2 → eo j = true := by
  intro todo
  induction todo with
  | nil => intro i store j h; simp [runLoop] at h
  | cons f rest ih =>
      intro i store j h
      simp only [runLoop, List.mem_append] at h
      rcases h with h | h
      · by_cases hc : (dispatchOne (eo i) (ex i) store f).2.1 = true
        · rw [if_pos hc] at h
          simp at h
          rw [h]
          exact dispatchOne_called (eo i) (ex i) store f hc
        · rw [if_neg hc] at h
          simp at h
      · exact ih (i + 1) _ j h

theorem runLoop_store (eo : Nat → Bool) (ex : Nat → Except String Nat) :
    ∀ (todo pre : List VideoFile) (i : Nat),
      ((pre ++ todo).map (·.id)).Nodup →
      (runLoop eo ex i todo (pre ++ todo)).1 = pre ++ outcomes eo ex i todo := by
  intro todo
  induction todo with
  | nil => intro pre i _; simp [runLoop, outcomes]
  | cons f rest ih =>
      intro pre i h
      have hmap : (pre ++ f :: rest).map (·.id)
          = pre.map (·.id) ++ f.id :: rest.map (·.id) := by simp
      rw [hmap] at h
      obtain ⟨h1, h2, hdisj⟩ := List.nodup_append.mp h
      have hfrest : f.id ∉ rest.map (·.id) := (List.nodup_cons.mp h2).1
      have hfpre : f.id ∉ pre.map (·.id) := fun hmem =>
        hdisj hmem (List.mem_cons_self _ _)
      have hpre : ∀ x ∈ pre, x.id ≠ f.id := fun x hx heq =>
        hfpre (heq ▸ List.mem_map_of_mem (·.id) hx)
      have hrest : ∀ x ∈ rest, x.id ≠ f.id := fun x hx heq =>
        hfrest (heq ▸ List.mem_map_of_mem (·.id) hx)
      have hd := dispatchOne_at (eo i) (ex i) pre rest f hpre hrest
      have hout : (jobOutcome (eo i) (ex i) f).id = f.id := jobOutcome_id (eo i) (ex i) f
      have hnodup2 : (((pre ++ [jobOutcome (eo i) (ex i) f]) ++ rest).map (·.id)).Nodup := by
        have : ((pre ++ [jobOutcome (eo i) (ex i) f]) ++ rest).map (·.id)
            = pre.map (·.id) ++ f.id :: rest.map (·.id) := by
          simp [hout]
        rw [this]
        exact h
      have hihres := ih (pre ++ [jobOutcome (eo i) (ex i) f]) (i + 1) hnodup2
      show (runLoop eo ex (i + 1) rest (dispatchOne (eo i) (ex i) (pre ++ f :: rest) f).1).1
        = pre ++ outcomes eo ex i (f :: rest)
      rw [hd]
      have hassoc : pre ++ jobOutcome (eo i) (ex i) f :: rest
          = (pre ++ [jobOutcome (eo i) (ex i) f]) ++ rest := by simp
      rw [hassoc, hihres]
      simp [outcomes]

theorem outcomes_mem (eo : Nat → Bool) (ex : Nat → Except String Nat) :
    ∀ (l : List VideoFile) (i : Nat) (g : VideoFile), g ∈ outcomes eo ex i l →
      ∃ j f, f ∈ l ∧ g = jobOutcome (eo j) (ex j) f := by
  intro l
  induction l with
  | nil => intro i g h; simp [outcomes] at h
  | cons f rest ih =>
      intro i g h
      simp only [outcomes, List.mem_cons] at h
      rcases h with h | h
      · exact ⟨i, f, List.mem_cons_self _ _, h⟩
      · obtain ⟨j, f0, hf0, hg⟩ := ih (i + 1) g h
        exact ⟨j, f0, List.mem_cons_of_mem f hf0, hg⟩

theorem jobOutcome_engine_lost (e : Except String Nat) (f : VideoFile)
    (hf : f.status = Status.pending) :
    (jobOutcome false e f).status = Status.error ∧
    (jobOutcome false e f).error = some msgEngineLost := by
  have hne : ¬ f.status ≠ Status.pending := by simpa using hf
  rw [jobOutcome, if_neg hne]
  exact ⟨rfl, rfl⟩

theorem jobOutcome_not_completed (b : Bool) (e : Except String Nat) (f : VideoFile)
    (hb : b = false) (hf : f.status ≠ Status.completed) :
    (jobOutcome b e f).status ≠ Status.completed := by
  subst hb
  by_cases hst : f.status ≠ Status.pending
  · rw [jobOutcome, if_pos hst]
    exact hf
  · rw [jobOutcome, if_neg hst]
    simp


theorem dedupNewFiles_spec : ∀ (l : List RawFile) (ex : List String),
    (∀ f ∈ dedupNewFiles ex l, f.name ∉ ex) ∧
    ((dedupNewFiles ex l).map (·.name)).Nodup := by
  intro l
  induction l with
  | nil => intro ex; simp [dedupNewFiles]
  | cons f rest ih =>
      intro ex
      by_cases hc : ex.contains f.name = true
      · rw [dedupNewFiles, if_pos hc]
        exact ih ex
      · rw [dedupNewFiles, if_neg hc]
        obtain ⟨ih1, ih2⟩ := ih (f.name :: ex)
        have hfex : f.name ∉ ex := fun hm => hc (List.elem_iff.mpr hm)
        constructor
        · intro g hg
          rcases List.mem_cons.mp hg with hg | hg
          · rw [hg]; exact hfex
          · intro hm
            exact ih1 g hg (List.mem_cons_of_mem _ hm)
        · rw [List.map_cons]
          refine List.nodup_cons.mpr ⟨?_, ih2⟩
          intro hm
          obtain ⟨g, hg, hgname⟩ := List.mem_map.mp hm
          exact ih1 g hg (hgname ▸ List.mem_cons_self _ _)

theorem buildNewFiles_names (mkId : Nat → String) : ∀ (l : List RawFile) (i : Nat),
    (buildNewFiles mkId i l).map (·.name) = l.map (·.name) := by
  intro l
  induction l with
  | nil => intro i; rfl
  | cons f rest ih =>
      intro i
      simp only [buildNewFiles, List.map_cons, ih (i + 1)]
      rfl

theorem buildNewFiles_mem (mkId : Nat → String) : ∀ (l : List RawFile) (i : Nat)
    (g : VideoFile), g ∈ buildNewFiles mkId i l →
    g.status = Status.pending ∧ g.uploadProgress = 0 ∧ g.processingProgress = 0 ∧
    g.name ∈ l.map (·.name) := by
  intro l
  induction l with
  | nil => intro i g h; simp [buildNewFiles] at h
  | cons f rest ih =>
      intro i g h
      rcases List.mem_cons.mp h with h | h
      · rw [h]
        exact ⟨rfl, rfl, rfl, List.mem_cons_self _ _⟩
      · obtain ⟨h1, h2, h3, h4⟩ := ih (i + 1) g h
        exact ⟨h1, h2, h3, List.mem_cons_of_mem _ h4⟩

theorem loadGo_fail : ∀ (sources : List SourceBehavior) (st : EngineState),
    (∀ s ∈ sources, (s.directOk && s.selfTestOk) = false ∧ stagedOk s = false) →
    loadGo st sources = (⟨false, false⟩, Except.error msgLoadFailed) := by
  intro sources
  induction sources with
  | nil => intro st _; rfl
  | cons s rest ih =>
      intro st h
      obtain ⟨h1, h2⟩ := h s (List.mem_cons_self _ _)
      have htry : trySourceOk st.ffmpegInst s = false := by
        simp [trySourceOk, h1, h2]
      rw [loadGo, if_neg (by simp [htry])]
      exact ih ⟨false, false⟩ (fun x hx => h x (List.mem_cons_of_mem s hx))

/-! ## Lemmas about the extraction pipeline -/

theorem extract_too_large (eng : EngineBehavior) (file : InputFile)
    (fmt qual uid : String) (hs : 100 * 1024 * 1024 < file.size) :
    extractAudio true eng file fmt qual uid =
      ([EngOp.listDir, EngOp.listDir, EngOp.delete (inputName file.name uid),
        EngOp.delete (outputName fmt uid)], Except.error msgGeneric) := by
  have hclass : classifyError msgTooLarge = msgGeneric := by decide
  simp [extractAudio, extractFail, hs, hclass]

theorem extract_reject_type (eng : EngineBehavior) (file : InputFile)
    (fmt qual uid : String) (hsize : ¬ 100 * 1024 * 1024 < file.size)
    (hrej : (isTypeSupported file.type || isExtensionSupported file.name) = false) :
    extractAudio true eng file fmt qual uid =
      ([EngOp.listDir, EngOp.listDir, EngOp.delete (inputName file.name uid),
        EngOp.delete (outputName fmt uid)], Except.error msgUnsupportedFormat) := by
  have hclass : classifyError msgUnsupportedFormat = msgUnsupportedFormat := by decide
  simp [extractAudio, extractFail, hsize, hrej, hclass]

theorem extract_write_mem (eng : EngineBehavior) (file : InputFile)
    (fmt qual uid : String) (hsize : ¬ 100 * 1024 * 1024 < file.size)
    (hacc : (isTypeSupported file.type || isExtensionSupported file.name) = true) :
    EngOp.write (inputName file.name uid) ∈ (extractAudio true eng file fmt qual uid).1 := by
  obtain ⟨wr, rb, er, orr, dio⟩ := eng
  cases wr with
  | some m => simp [extractAudio, extractFail, hsize, hacc]
  | none =>
      cases rb with
      | error m => simp [extractAudio, extractFail, hsize, hacc]
      | ok n =>
          cases er with
          | some m => simp [extractAudio, extractFail, hsize, hacc]
          | none =>
              cases orr with
              | error m => simp [extractAudio, extractFail, hsize, hacc]
              | ok n2 =>
                  by_cases hz : n2 = 0
                  · simp [extractAudio, extractFail, hsize, hacc, hz]
                  · cases dio <;> simp [extractAudio, extractFail, hsize, hacc, hz]

theorem extract_readback_err (eng : EngineBehavior) (file : InputFile)
    (fmt qual uid : String) (m : String)
    (hsize : ¬ 100 * 1024 * 1024 < file.size)
    (hacc : (isTypeSupported file.type || isExtensionSupported file.name) = true)
    (hwr : eng.writeResult = none) (hrb : eng.readBack = Except.error m) :
    extractAudio true eng file fmt qual uid =
      ([EngOp.listDir, EngOp.write (inputName file.name uid),
        EngOp.read (inputName file.name uid), EngOp.listDir,
        EngOp.delete (inputName file.name uid), EngOp.delete (outputName fmt uid)],
       Except.error msgGeneric) := by
  have hclass : classifyError msgWriteVerifyFailed = msgGeneric := by decide
  simp [extractAudio, extractFail, hsize, hacc, hwr, hrb, hclass]

theorem extract_readback_ok_exec (eng : EngineBehavior) (file : InputFile)
    (fmt qual uid : String) (n : Nat)
    (hsize : ¬ 100 * 1024 * 1024 < file.size)
    (hacc : (isTypeSupported file.type || isExtensionSupported file.name) = true)
    (hwr : eng.writeResult = none) (hrb : eng.readBack = Except.ok n) :
    EngOp.exec ("-i" :: inputName file.name uid :: "-vn" ::
        (getQualityParams fmt qual ++ [outputName fmt uid]))
      ∈ (extractAudio true eng file fmt qual uid).1 := by
  obtain ⟨wr, rb, er, orr, dio⟩ := eng
  simp only at hwr hrb
  subst hwr
  subst hrb
  cases er with
  | some m => simp [extractAudio, extractFail, hsize, hacc]
  | none =>
      cases orr with
      | error m => simp [extractAudio, extractFail, hsize, hacc]
      | ok n2 =>
          by_cases hz : n2 = 0
          · simp [extractAudio, extractFail, hsize, hacc, hz]
          · cases dio <;> simp [extractAudio, extractFail, hsize, hacc, hz]

/-! ## Claim theorems -/

/-- C8: for every (format, quality) pair the codec command arguments are
exactly those of the parameter table — mp3 (constant-bitrate) 320k/192k/128k,
wav (sample-rate select) 48000/44100/22050, aac (constant-bitrate)
256k/128k/96k — listing all nine pairs of the two union types. -/
theorem c8_quality_param_table :
    getQualityParams ("mp3") ("high") = ["-acodec", "libmp3lame", "-b:a", "320k"] ∧
    getQualityParams ("mp3") ("medium") = ["-acodec", "libmp3lame", "-b:a", "192k"] ∧
    getQualityParams ("mp3") ("low") = ["-acodec", "libmp3lame", "-b:a", "128k"] ∧
    getQualityParams ("wav") ("high") = ["-acodec", "pcm_s16le", "-ar", "48000"] ∧
    getQualityParams ("wav") ("medium") = ["-acodec", "pcm_s16le", "-ar", "44100"] ∧
    getQualityParams ("wav") ("low") = ["-acodec", "pcm_s16le", "-ar", "22050"] ∧
    getQualityParams ("aac") ("high") = ["-acodec", "aac", "-b:a", "256k"] ∧
    getQualityParams ("aac") ("medium") = ["-acodec", "aac", "-b:a", "128k"] ∧
    getQualityParams ("aac") ("low") = ["-acodec", "aac", "-b:a", "96k"] := by
  decide

/-- C1: evaluating `retryProcessing` on a single errored job with recorded
processing progress 57 shows that the retry sets the status back to
`pending` and clears the error message, but the progress write of 0 is
swallowed by the monotone clamp of `updateFileProgress`, so the job's
processing progress stays 57 instead of resetting to 0. -/
theorem c1_retry_eval :
    cxJobErr.status = Status.error ∧
    cxJobErr.processingProgress = 57 ∧
    retryProcessing true [cxJobErr] =
      [{ cxJobErr with status := Status.pending, error := none }] ∧
    (retryProcessing true [cxJobErr]).map (·.processingProgress) = [57] ∧
    (57 : ℚ) ≠ 0 := by
  decide

/-- C4: when every source fails both the direct and the staged
initialization path, `load` from any not-loaded state ends with the single
aggregated load error, the engine instance discarded and `loaded = false`;
and a later `load` call from that final state behaves exactly like a load
from scratch. -/
theorem c4_all_sources_fail (st : EngineState) (sources : List SourceBehavior)
    (hst : ¬ (st.loaded = true ∧ st.ffmpegInst = true))
    (hall : ∀ s ∈ sources, (s.directOk && s.selfTestOk) = false ∧ stagedOk s = false) :
    load st sources = (⟨false, false⟩, Except.error msgLoadFailed) ∧
    (∀ sources2 : List SourceBehavior,
      load (load st sources).1 sources2 = load ⟨false, false⟩ sources2) := by
  have hmain : load st sources = (⟨false, false⟩, Except.error msgLoadFailed) := by
    rw [load, if_neg (by simpa [Bool.and_eq_true] using hst)]
    exact loadGo_fail sources ⟨true, st.loaded⟩ hall
  exact ⟨hmain, fun sources2 => by rw [hmain]⟩

/-- C4 witness: two sources, one of which would succeed only at its fourth
fetch attempt (outside the 3-retry budget), leave the loader not-loaded with
the aggregated error. -/
theorem c4_witness :
    load ⟨false, false⟩
        [{ directOk := false, coreFetch := [false, false, false, true],
           wasmFetch := [true], blobLoadOk := true, selfTestOk := true },
         { directOk := true, coreFetch := [true], wasmFetch := [true],
           blobLoadOk := true, selfTestOk := false }]
      = (⟨false, false⟩, Except.error msgLoadFailed) :=
  (c4_all_sources_fail ⟨false, false⟩ _ (by decide) (by decide)).1

/-- C10: `addFiles` never enqueues a file whose name is already present (in
the registry or earlier in the same call) — the resulting name list stays
duplicate-free — and every entry it does enqueue starts with status
`pending`, `uploadProgress = 0` and `processingProgress = 0`. -/
theorem c10_addFiles (state : List VideoFile) (newFiles : List RawFile)
    (mkId : Nat → String) (h : (state.map (·.name)).Nodup) :
    ((addFiles state newFiles mkId).map (·.name)).Nodup ∧
    (∀ f ∈ addFiles state newFiles mkId,
      f ∈ state ∨
      (f.name ∉ state.map (·.name) ∧ f.status = Status.pending ∧
       f.uploadProgress = 0 ∧ f.processingProgress = 0)) := by
  obtain ⟨hd1, hd2⟩ := dedupNewFiles_spec newFiles (state.map (·.name))
  have hnames : (buildNewFiles mkId 0 (dedupNewFiles (state.map (·.name)) newFiles)).map (·.name)
      = (dedupNewFiles (state.map (·.name)) newFiles).map (·.name) :=
    buildNewFiles_names mkId _ 0
  constructor
  · rw [addFiles, List.map_append, hnames]
    refine h.append hd2 ?_
    intro a ha hb
    obtain ⟨g, hg, hgname⟩ := List.mem_map.mp hb
    exact hd1 g hg (hgname ▸ ha)
  · intro f hf
    rcases List.mem_append.mp hf with hf | hf
    · exact Or.inl hf
    · obtain ⟨h1, h2, h3, h4⟩ := buildNewFiles_mem mkId _ 0 f hf
      refine Or.inr ⟨?_, h1, h2, h3⟩
      intro hmem
      obtain ⟨g, hg, hgname⟩ := List.mem_map.mp h4
      exact hd1 g hg (hgname ▸ hmem)

/-- C10 witness: adding three raw files — one name already in the registry,
one fresh name appearing twice in the call — to a one-job registry. -/
theorem c10_witness :
    (([cxJobA].map (·.name)).Nodup) ∧
    (((addFiles [cxJobA]
        [{ name := "a.mp4", size := 1, type := "video/mp4" },
         { name := "c.mp4", size := 2, type := "video/mp4" },
         { name := "c.mp4", size := 3, type := "video/mp4" }]
        (fun _ => "id")).map (·.name)).Nodup ∧
     ∀ f ∈ addFiles [cxJobA]
        [{ name := "a.mp4", size := 1, type := "video/mp4" },
         { name := "c.mp4", size := 2, type := "video/mp4" },
         { name := "c.mp4", size := 3, type := "video/mp4" }]
        (fun _ => "id"),
       f ∈ [cxJobA] ∨
       (f.name ∉ [cxJobA].map (·.name) ∧ f.status = Status.pending ∧
        f.uploadProgress = 0 ∧ f.processingProgress = 0)) :=
  ⟨by decide, c10_addFiles _ _ _ (by decide)⟩

/-- C7 counterexample: with the engine reporting not-loaded from the start,
a run over two pending jobs does not abort after the first failed readiness
re-check — the second job is still dispatched and driven to `error` (with
the readiness message) instead of being left untouched in `pending`. -/
theorem c7_counterexample :
    cxJobA.status = Status.pending ∧ cxJobB.status = Status.pending ∧
    (startProcessingRun (fun _ => false) (fun _ => Except.error ("x"))
        [cxJobA, cxJobB]).1 =
      [{ cxJobA with status := Status.error, error := some msgEngineLost },
       { cxJobB with status := Status.error, error := some msgEngineLost }] ∧
    Status.error ≠ Status.pending := by
  decide

/-- C7 amended: when engine readiness is lost mid-run, the loop still visits
every remaining snapshot entry, but each pending one fails its per-job
readiness re-check immediately and is marked `error` with the readiness
message; `extractAudio` is invoked only at indices where the engine was
still loaded (never against the dead engine); and if the engine is down
throughout and nothing was completed before, no job ends `completed`, so the
run surfaces failure. -/
theorem c7_amended (eo : Nat → Bool) (ex : Nat → Except String Nat)
    (files : List VideoFile) (hnd : (files.map (·.id)).Nodup) :
    (startProcessingRun eo ex files).1 = outcomes eo ex 0 files ∧
    (∀ j ∈ (startProcessingRun eo ex files).2, eo j = true) ∧
    (∀ (e : Except String Nat) (f : VideoFile), f.status = Status.pending →
      (jobOutcome false e f).status = Status.error ∧
      (jobOutcome false e f).error = some msgEngineLost) ∧
    ((∀ i, eo i = false) → (∀ f ∈ files, f.status ≠ Status.completed) →
      ∀ g ∈ (startProcessingRun eo ex files).1, g.status ≠ Status.completed) := by
  have hchar : (startProcessingRun eo ex files).1 = outcomes eo ex 0 files := by
    have := runLoop_store eo ex files [] 0 (by simpa using hnd)
    simpa [startProcessingRun] using this
  refine ⟨hchar, ?_, ?_, ?_⟩
  · intro j hj
    exact runLoop_calls eo ex files 0 files j hj
  · intro e f hf
    exact jobOutcome_engine_lost e f hf
  · intro heo hnc g hg
    rw [hchar] at hg
    obtain ⟨j, f, hf, hgeq⟩ := outcomes_mem eo ex files 0 g hg
    rw [hgeq]
    exact jobOutcome_not_completed (eo j) (ex j) f (heo j) (hnc f hf)

/-- C7 witness: the amended statement instantiated at the two-job snapshot
with the engine down throughout. -/
theorem c7_witness :
    (([cxJobA, cxJobB].map (·.id)).Nodup) ∧
    ((startProcessingRun (fun _ => false) (fun _ => Except.error ("x"))
        [cxJobA, cxJobB]).1
      = outcomes (fun _ => false) (fun _ => Except.error ("x")) 0 [cxJobA, cxJobB] ∧
     (∀ j ∈ (startProcessingRun (fun _ => false) (fun _ => Except.error ("x"))
        [cxJobA, cxJobB]).2, (fun _ => false) j = true) ∧
     (∀ (e : Except String Nat) (f : VideoFile), f.status = Status.pending →
       (jobOutcome false e f).status = Status.error ∧
       (jobOutcome false e f).error = some msgEngineLost) ∧
     ((∀ i : Nat, (fun _ => false) i = false) →
      (∀ f ∈ [cxJobA, cxJobB], f.status ≠ Status.completed) →
      ∀ g ∈ (startProcessingRun (fun _ => false) (fun _ => Except.error ("x"))
        [cxJobA, cxJobB]).1, g.status ≠ Status.completed)) :=
  ⟨by decide, c7_amended (fun _ => false) (fun _ => Except.error ("x"))
    [cxJobA, cxJobB] (by decide)⟩

/-- C2 counterexample: a 10-byte source whose read-back reports 11 bytes — a
byte-length mismatch — does not fail with the write-verification error:
extraction executes the codec command and returns the output blob. -/
theorem c2_counterexample :
    cxFileSmall.size = 10 ∧
    cxEngMismatch.readBack = Except.ok 11 ∧
    (10 : Nat) ≠ 11 ∧
    (extractAudio true cxEngMismatch cxFileSmall ("mp3") ("high") ("u1")).2 =
      Except.ok { size := 5, mime := "audio/mpeg" } ∧
    EngOp.exec (["-i", "input_u1.mp4", "-vn", "-acodec", "libmp3lame",
        "-b:a", "320k", "output_u1.mp3"])
      ∈ (extractAudio true cxEngMismatch cxFileSmall ("mp3") ("high") ("u1")).1 := by
  decide

/-- C2 amended: after the write, the source is read back, but a byte-length
mismatch is only logged — whenever the read-back returns (any length),
extraction proceeds to build and execute the codec command; extraction
aborts at the verification step only when the read-back itself throws, and
then the surfaced error is the generic extraction message (the
write-verification message is replaced by the final catch-all classifier)
and the codec command is never executed. -/
theorem c2_amended (eng : EngineBehavior) (file : InputFile) (fmt qual uid : String)
    (hsize : ¬ 100 * 1024 * 1024 < file.size)
    (hacc : (isTypeSupported file.type || isExtensionSupported file.name) = true)
    (hwr : eng.writeResult = none) :
    (∀ n : Nat, eng.readBack = Except.ok n →
      EngOp.exec ("-i" :: inputName file.name uid :: "-vn" ::
          (getQualityParams fmt qual ++ [outputName fmt uid]))
        ∈ (extractAudio true eng file fmt qual uid).1) ∧
    (∀ m : String, eng.readBack = Except.error m →
      (extractAudio true eng file fmt qual uid).2 = Except.error msgGeneric ∧
      ∀ c : List String, EngOp.exec c ∉ (extractAudio true eng file fmt qual uid).1) := by
  constructor
  · intro n hrb
    exact extract_readback_ok_exec eng file fmt qual uid n hsize hacc hwr hrb
  · intro m hrb
    have heq := extract_readback_err eng file fmt qual uid m hsize hacc hwr hrb
    rw [heq]
    exact ⟨rfl, by intro c; simp⟩

/-- C2 witness: the amended statement at the mismatching fixture. -/
theorem c2_witness :
    (¬ 100 * 1024 * 1024 < cxFileSmall.size) ∧
    (isTypeSupported cxFileSmall.type || isExtensionSupported cxFileSmall.name) = true ∧
    cxEngMismatch.writeResult = none ∧
    ((∀ n : Nat, cxEngMismatch.readBack = Except.ok n →
      EngOp.exec ("-i" :: inputName cxFileSmall.name ("u1") :: "-vn" ::
          (getQualityParams ("mp3") ("high") ++ [outputName ("mp3") ("u1")]))
        ∈ (extractAudio true cxEngMismatch cxFileSmall ("mp3") ("high") ("u1")).1) ∧
     (∀ m : String, cxEngMismatch.readBack = Except.error m →
      (extractAudio true cxEngMismatch cxFileSmall ("mp3") ("high") ("u1")).2 =
        Except.error msgGeneric ∧
      ∀ c : List String, EngOp.exec c ∉
        (extractAudio true cxEngMismatch cxFileSmall ("mp3") ("high") ("u1")).1)) :=
  ⟨by decide, by decide, by decide,
   c2_amended cxEngMismatch cxFileSmall ("mp3") ("high") ("u1")
     (by decide) (by decide) (by decide)⟩

/-- C5 counterexample: a file one byte over 100MB is rejected, but not as
the claim states it — an engine interaction (the diagnostic directory
listing, plus cleanup deletion attempts) does occur, and the surfaced error
is the generic extraction message, not the size-validation message. -/
theorem c5_counterexample :
    104857600 < cxFileBig.size ∧
    (extractAudio true cxEngMismatch cxFileBig ("mp3") ("high") ("u1")).1 ≠ [] ∧
    EngOp.listDir ∈ (extractAudio true cxEngMismatch cxFileBig ("mp3") ("high") ("u1")).1 ∧
    (extractAudio true cxEngMismatch cxFileBig ("mp3") ("high") ("u1")).2 ≠
      Except.error msgTooLarge ∧
    (extractAudio true cxEngMismatch cxFileBig ("mp3") ("high") ("u1")).2 =
      Except.error msgGeneric := by
  decide

/-- C5 amended: for every file over 100MB, `extract` rejects before any
engine filesystem write — its trace is exactly two read-only directory
listings and the two best-effort cleanup deletions, so no temporary input or
output file is ever created and no command runs — and the surfaced error is
the generic extraction message (the size-validation message is replaced by
the final catch-all classifier). -/
theorem c5_amended (eng : EngineBehavior) (file : InputFile) (fmt qual uid : String)
    (hs : 100 * 1024 * 1024 < file.size) :
    extractAudio true eng file fmt qual uid =
      ([EngOp.listDir, EngOp.listDir, EngOp.delete (inputName file.name uid),
        EngOp.delete (outputName fmt uid)], Except.error msgGeneric) ∧
    (∀ nm : String, EngOp.write nm ∉ (extractAudio true eng file fmt qual uid).1) ∧
    (∀ c : List String, EngOp.exec c ∉ (extractAudio true eng file fmt qual uid).1) ∧
    (∀ nm : String, EngOp.read nm ∉ (extractAudio true eng file fmt qual uid).1) := by
  have heq := extract_too_large eng file fmt qual uid hs
  refine ⟨heq, ?_, ?_, ?_⟩ <;> rw [heq] <;> intro x <;> simp

/-- C5 witness: the amended statement at the oversized fixture. -/
theorem c5_witness :
    100 * 1024 * 1024 < cxFileBig.size ∧
    (extractAudio true cxEngMismatch cxFileBig ("mp3") ("high") ("u1")).2 =
      Except.error msgGeneric ∧
    (∀ nm : String, EngOp.write nm ∉
      (extractAudio true cxEngMismatch cxFileBig ("mp3") ("high") ("u1")).1) :=
  ⟨by decide,
   by rw [(c5_amended cxEngMismatch cxFileBig ("mp3") ("high") ("u1") (by decide)).1],
   (c5_amended cxEngMismatch cxFileBig ("mp3") ("high") ("u1") (by decide)).2.1⟩

/-- C9: in the pre-flight type check the declared MIME type takes
precedence — when it is in the supported set the file is accepted no matter
the extension; when the declared type is empty or not in the set, the
lowercased extension is the fallback and its acceptance suffices; when
neither path accepts, extraction fails with the unsupported-format
validation message (surfaced verbatim by the classifier) before any engine
filesystem write. -/
theorem c9_type_precedence (eng : EngineBehavior) (file : InputFile)
    (fmt qual uid : String) (hsize : ¬ 100 * 1024 * 1024 < file.size) :
    (isTypeSupported file.type = true →
      EngOp.write (inputName file.name uid) ∈ (extractAudio true eng file fmt qual uid).1) ∧
    (isTypeSupported file.type = false → isExtensionSupported file.name = true →
      EngOp.write (inputName file.name uid) ∈ (extractAudio true eng file fmt qual uid).1) ∧
    (isTypeSupported file.type = false → isExtensionSupported file.name = false →
      (extractAudio true eng file fmt qual uid).2 = Except.error msgUnsupportedFormat ∧
      ∀ nm : String, EngOp.write nm ∉ (extractAudio true eng file fmt qual uid).1) := by
  refine ⟨?_, ?_, ?_⟩
  · intro ht
    exact extract_write_mem eng file fmt qual uid hsize (by rw [ht]; rfl)
  · intro _ he
    exact extract_write_mem eng file fmt qual uid hsize (by rw [he]; simp)
  · intro ht he
    have heq := extract_reject_type eng file fmt qual uid hsize (by rw [ht, he]; rfl)
    rw [heq]
    exact ⟨rfl, by intro nm; simp⟩

/-- C9 witness: a file whose declared type is unsupported but whose
extension is supported is accepted through the fallback; the other two
branches are instantiated vacuously or by the same fixture. -/
theorem c9_witness :
    (¬ 100 * 1024 * 1024 < (10 : Nat)) ∧
    ((isTypeSupported ("application/octet-stream") = true →
      EngOp.write (inputName ("clip.MKV") ("u2")) ∈
        (extractAudio true cxEngMismatch
          { name := "clip.MKV", size := 10, type := "application/octet-stream" }
          ("wav") ("low") ("u2")).1) ∧
     (isTypeSupported ("application/octet-stream") = false →
      isExtensionSupported ("clip.MKV") = true →
      EngOp.write (inputName ("clip.MKV") ("u2")) ∈
        (extractAudio true cxEngMismatch
          { name := "clip.MKV", size := 10, type := "application/octet-stream" }
          ("wav") ("low") ("u2")).1) ∧
     (isTypeSupported ("application/octet-stream") = false →
      isExtensionSupported ("clip.MKV") = false →
      (extractAudio true cxEngMismatch
          { name := "clip.MKV", size := 10, type := "application/octet-stream" }
          ("wav") ("low") ("u2")).2 = Except.error msgUnsupportedFormat ∧
      ∀ nm : String, EngOp.write nm ∉
        (extractAudio true cxEngMismatch
          { name := "clip.MKV", size := 10, type := "application/octet-stream" }
          ("wav") ("low") ("u2")).1)) :=
  ⟨by decide,
   c9_type_precedence cxEngMismatch
     { name := "clip.MKV", size := 10, type := "application/octet-stream" }
     ("wav") ("low") ("u2") (by decide)⟩

/-- C6 counterexample: a genuine engine progress event of ratio 1 before the
command completes is reported as 100 — the 95 ceiling applies only to the
synthetic filler, so the reported value does exceed 95 before completion. -/
theorem c6_counterexample :
    validEventsB [PEvent.genuine 1] = true ∧
    (preReports [PEvent.genuine 1]).map reportValue = [100] ∧
    ¬ (∀ v ∈ (preReports [PEvent.genuine 1]).map reportValue, v ≤ 95) := by
  have h1 : (1 : ℚ) * 100 = 100 := by norm_num
  have hpre : preReports [PEvent.genuine 1] = [PReport.fromGenuine 100] := by
    simp [preReports, runEvents, pstep, h1]
    decide
  refine ⟨by decide, ?_, ?_⟩
  · rw [hpre]
    rfl
  · rw [hpre]
    intro hall
    have h100 := hall 100 (by simp [reportValue])
    norm_num at h100

/-- C6 amended: during one extraction attempt the synthetic filler never
reports above 95; the reported sequence (shared monotone-clamped state,
rounded) is non-decreasing; every report is at most 100; and on command
completion the value 100 is reported — genuine engine progress, however, is
not capped at 95 before completion. -/
theorem c6_amended (events : List PEvent) (hv : validEventsB events = true) :
    (∀ p : ℤ, PReport.fromTick p ∈ preReports events → p ≤ 95) ∧
    List.Chain' (· ≤ ·) (allReports events) ∧
    (∀ v ∈ allReports events, v ≤ 100) ∧
    (100 : ℤ) ∈ allReports events := by
  obtain ⟨hmono, hbounds, hchain⟩ := runEvents_spec events 0
  have hle100 : (runEvents 0 events).1 ≤ 100 :=
    runEvents_le_100 events hv 0 (by norm_num)
  have hv100 : ∀ v ∈ (preReports events).map reportValue, v ≤ 100 := by
    intro v hvmem
    obtain ⟨r, hr, hveq⟩ := List.mem_map.mp hvmem
    calc v = reportValue r := hveq.symm
      _ ≤ jsRound (runEvents 0 events).1 := (hbounds r hr).2
      _ ≤ jsRound ((100 : ℚ)) := jsRound_mono hle100
      _ = 100 := jsRound_100
  refine ⟨?_, ?_, ?_, ?_⟩
  · intro p hp
    exact runEvents_tick_le events 0 p hp
  · unfold allReports
    refine List.Chain'.append hchain (List.chain'_singleton 100) ?_
    intro x hx y hy
    have hxmem : x ∈ (preReports events).map reportValue :=
      List.mem_of_mem_getLast? hx
    have hy100 : y = 100 := by
      have hh := hy
      simp at hh
      exact hh.symm
    rw [hy100]
    exact hv100 x hxmem
  · intro v hvm
    rcases List.mem_append.mp hvm with h | h
    · exact hv100 v h
    · simp at h
      rw [h]
  · exact List.mem_append_right _ (List.mem_cons_self _ _)

/-- C6 witness: the amended statement at one genuine event and one filler
tick. -/
theorem c6_witness :
    validEventsB [PEvent.genuine 1, PEvent.tick 1] = true ∧
    ((∀ p : ℤ, PReport.fromTick p ∈ preReports [PEvent.genuine 1, PEvent.tick 1] →
        p ≤ 95) ∧
     List.Chain' (· ≤ ·) (allReports [PEvent.genuine 1, PEvent.tick 1]) ∧
     (∀ v ∈ allReports [PEvent.genuine 1, PEvent.tick 1], v ≤ 100) ∧
     (100 : ℤ) ∈ allReports [PEvent.genuine 1, PEvent.tick 1]) :=
  ⟨by decide, c6_amended [PEvent.genuine 1, PEvent.tick 1] (by decide)⟩

/-- C3: the single-flight guard. First part: any sequence of status/progress
registry updates leaves the id list, hence the files hash, unchanged, so the
effect does not re-arm the guard and, while a run is in flight (the started
ref or the processing flag set), no second run starts. Second part: for id
lists that are duplicate-free, nonempty and bar-free (as the store's
base-36 ids are), any change to the id set changes the hash, the guard
re-arms (the started ref is cleared), and if nothing else blocks — not
processing, both engine flags set, a pending job present — a new run does
start. -/
theorem c3_single_flight (g : Guard) (files : List VideoFile)
    (updates : List StoreUpdate) (fl el : Bool)
    (hg : g.filesHash = generateFilesHash files) :
    (rearmGuard g (applyUpdates updates files) = g ∧
     ((g.hasStarted = true ∨ g.isProcessing = true) →
       (processEffect g (applyUpdates updates files) fl el).2 = false ∧
       (processEffect g (applyUpdates updates files) fl el).1.hasStarted = g.hasStarted)) ∧
    (∀ files2 : List VideoFile,
      (∀ s ∈ files.map (·.id), s.toList ≠ [] ∧ '|' ∉ s.toList) →
      (∀ s ∈ files2.map (·.id), s.toList ≠ [] ∧ '|' ∉ s.toList) →
      (files.map (·.id)).Nodup → (files2.map (·.id)).Nodup →
      (files2.map (·.id)).toFinset ≠ (files.map (·.id)).toFinset →
      (generateFilesHash files2 ≠ g.filesHash ∧
       (rearmGuard g files2).hasStarted = false ∧
       (g.isProcessing = false → fl = true → el = true →
        files2.any (fun f => decide (f.status = Status.pending)) = true →
        (processEffect g files2 fl el).2 = true))) := by
  have hh : generateFilesHash (applyUpdates updates files) = g.filesHash :=
    (hash_after_updates updates files).trans hg.symm
  have hrearm : rearmGuard g (applyUpdates updates files) = g := by
    simp [rearmGuard, hh]
  constructor
  · refine ⟨hrearm, ?_⟩
    intro hfl
    rcases hfl with h | h
    · constructor <;> simp [processEffect, hrearm, h]
    · constructor <;> simp [processEffect, hrearm, h]
  · intro files2 hbar1 hbar2 hnd1 hnd2 hne
    have hhne : generateFilesHash files2 ≠ g.filesHash := by
      intro he
      have hjoin : joinBar (sortIds (files2.map (·.id)))
          = joinBar (sortIds (files.map (·.id))) := by
        have hgen : generateFilesHash files2 = generateFilesHash files := he.trans hg
        simpa [generateFilesHash] using hgen
      have hperm : (files2.map (·.id)).Perm (files.map (·.id)) :=
        perm_of_hash_eq _ _ hbar2 hbar1 hjoin
      exact hne (List.toFinset_eq_of_perm _ _ hperm)
    have hcond : g.filesHash ≠ generateFilesHash files2 := fun he => hhne he.symm
    have hrearm2 : rearmGuard g files2 =
        { g with filesHash := generateFilesHash files2, hasStarted := false } := by
      simp [rearmGuard, hcond]
    refine ⟨hhne, by rw [hrearm2], ?_⟩
    intro hip hfl2 hel2 hany
    have hnonempty : files2.isEmpty = false := by
      cases files2 with
      | nil => simp at hany
      | cons f rest => rfl
    have hfilter : (files2.filter (fun f => decide (f.status = Status.pending))).isEmpty
        = false := by
      obtain ⟨f, hf, hfp⟩ := List.any_eq_true.mp hany
      have hmem : f ∈ files2.filter (fun f => decide (f.status = Status.pending)) :=
        List.mem_filter.mpr ⟨hf, hfp⟩
      cases hfl : files2.filter (fun f => decide (f.status = Status.pending)) with
      | nil => rw [hfl] at hmem; simp at hmem
      | cons a l => rfl
    simp [processEffect, hrearm2, hip, hfl2, hel2, hany, hnonempty, hfilter]

/-- C3 witness: a guard in flight over a one-job registry, hit by a status
update of that job: the hash is unchanged and no second run starts. -/
theorem c3_witness :
    (Guard.mk (generateFilesHash [cxJobA]) true true).filesHash
      = generateFilesHash [cxJobA] ∧
    rearmGuard (Guard.mk (generateFilesHash [cxJobA]) true true)
        (applyUpdates [StoreUpdate.setStatus ("a") Status.completed] [cxJobA])
      = Guard.mk (generateFilesHash [cxJobA]) true true ∧
    (processEffect (Guard.mk (generateFilesHash [cxJobA]) true true)
        (applyUpdates [StoreUpdate.setStatus ("a") Status.completed] [cxJobA])
        true true).2 = false :=
  ⟨rfl,
   (c3_single_flight (Guard.mk (generateFilesHash [cxJobA]) true true) [cxJobA]
     [StoreUpdate.setStatus ("a") Status.completed] true true rfl).1.1,
   ((c3_single_flight (Guard.mk (generateFilesHash [cxJobA]) true true) [cxJobA]
     [StoreUpdate.setStatus ("a") Status.completed] true true rfl).1.2
     (Or.inl rfl)).1⟩

end SoundScoop
